import Mathlib

/-!
# Verification of the transantlator core (Buck → Cargo translation)

Shallow embedding of the repository's core logic:

* `src/buck.rs` — the typed rule model (`BuildRule`, `BuildRuleType` and the
  per-variant rule records), the `crate_root` entry-point resolver, and the
  post-deserialization normalization performed by `from_bytes`.
* `src/graph.rs` — `dep_graph`, building a directed graph over rule
  identifiers from each rule's `deps` list.
* `src/main.rs` — the topological iteration over that graph
  (`petgraph::visit::Topo`), embedded as Kahn's algorithm with the same
  visiting discipline as petgraph's `Topo` (a stack of nodes whose incoming
  neighbours are all visited, initialised with the nodes that have no
  incoming edge).
* `src/translate.rs` — `translate_buildfile` (manifest synthesis for one
  directory group) and `translate_rules` (the per-directory loop).

Paths (`PathBuf`) are embedded as their list of components
(`BuckPath := List String`); `Path::file_name` is the last component,
`Path::components().count()` is the list length, and the empty path is `[]`.
Rust `HashMap` collections are embedded as association lists standing for
one iteration order; claims quantifying over "the" map are settled for all
orders by quantifying over the list.

Fallible steps are embedded in `Except`: the `failure::format_err!` returns
of the source become dedicated error constructors, and a Rust panic
(`Option::unwrap` on `None` inside `translate_buildfile`) becomes the
distinguished `panickedUnwrapNone` error, since a panic likewise aborts the
directory group's synthesis without producing manifest text.
-/

namespace Transantlator

/-- A filesystem path, embedded as its list of components
(`PathBuf` in `src/buck.rs`). The empty path is `[]`. -/
abbrev BuckPath := List String

/-- `Path::file_name()`: the last path component, `none` for the empty path. -/
def pathFileName (p : BuckPath) : Option String := p.getLast?

/-- `Path::components().count()`: the number of components. -/
def pathComponentCount (p : BuckPath) : Nat := p.length

/-- A build target identifier (`pub type BuildTarget = String`). -/
abbrev BuildTarget := String

/-- `CommonBuildRule` from `src/buck.rs`. -/
structure CommonBuildRule where
  name : String
  deps : List BuildTarget
  visibility : List String
deriving DecidableEq, Repr

/-- `LinkStyle` from `src/buck.rs`. -/
inductive LinkStyle where
  | Static
  | StaticPic
  | Shared
deriving DecidableEq, Repr

/-- `PreferredLinkage` from `src/buck.rs`. -/
inductive PreferredLinkage where
  | Any
  | Shared
  | Static
deriving DecidableEq, Repr

/-- `RustBinaryRule` from `src/buck.rs` (field order as in the source). -/
structure RustBinaryRule where
  srcs : List BuckPath
  features : List String
  rustc_flags : List String
  linker_flags : List String
  krate : String
  crate_root : BuckPath
  link_style : LinkStyle
  rpath : Bool
  tests : List BuildTarget
  licenses : List String
  labels : List String
deriving DecidableEq, Repr

/-- `Default for RustBinaryRule`: everything empty except `rpath = true`. -/
def RustBinaryRule.default : RustBinaryRule :=
  { srcs := [], features := [], rustc_flags := [], linker_flags := []
    krate := "", crate_root := [], link_style := .Static, rpath := true
    tests := [], licenses := [], labels := [] }

/-- `RustLibraryRule` from `src/buck.rs`. -/
structure RustLibraryRule where
  srcs : List BuckPath
  features : List String
  rustc_flags : List String
  krate : String
  crate_root : BuckPath
  preferred_linkage : PreferredLinkage
  tests : List BuildTarget
  licenses : List String
  labels : List String
deriving DecidableEq, Repr

/-- `Default for RustLibraryRule` (derived: everything default). -/
def RustLibraryRule.default : RustLibraryRule :=
  { srcs := [], features := [], rustc_flags := [], krate := ""
    crate_root := [], preferred_linkage := .Any, tests := [], licenses := []
    labels := [] }

/-- `RustTestRule` from `src/buck.rs`. -/
structure RustTestRule where
  srcs : List BuckPath
  framework : Bool
  features : List String
  rustc_flags : List String
  krate : String
  crate_root : BuckPath
  link_style : LinkStyle
  licenses : List String
  labels : List String
deriving DecidableEq, Repr

/-- `Default for RustTestRule`: everything empty except `framework = true`. -/
def RustTestRule.default : RustTestRule :=
  { srcs := [], framework := true, features := [], rustc_flags := []
    krate := "", crate_root := [], link_style := .Static, licenses := []
    labels := [] }

/-- `PrebuiltRustLibraryRule` from `src/buck.rs`. -/
structure PrebuiltRustLibraryRule where
  rlib : BuckPath
  krate : String
  licenses : List String
  labels : List String
deriving DecidableEq, Repr

/-- `BuildRuleType` from `src/buck.rs`: the variant-tagged rule payload.
`Other` is the `#[serde(other)]` catch-all unit variant. -/
inductive BuildRuleType where
  | RustBinary (rule : RustBinaryRule)
  | RustLibrary (rule : RustLibraryRule)
  | RustTest (rule : RustTestRule)
  | PrebuiltRustLibrary (rule : PrebuiltRustLibraryRule)
  | Other
deriving DecidableEq, Repr

/-- `BuildRule` from `src/buck.rs`. -/
structure BuildRule where
  base_path : BuckPath
  direct_dependencies : List BuildTarget
  common : CommonBuildRule
  typ : BuildRuleType
deriving DecidableEq, Repr

/-- `Rules = HashMap<BuildTarget, BuildRule>`, embedded as an association
list standing for one iteration order of the map. -/
abbrev Rules := List (BuildTarget × BuildRule)

namespace BuildRuleType

/-- Read access of `BuildRuleType::krate_mut` (`src/buck.rs:39-47`): the
`crate` field for the four recognized variants, `None` for `Other`. -/
def krateOf : BuildRuleType → Option String
  | .RustBinary r => some r.krate
  | .RustLibrary r => some r.krate
  | .RustTest r => some r.krate
  | .PrebuiltRustLibrary r => some r.krate
  | .Other => none

/-- Write access of `BuildRuleType::krate_mut`: assignment through the
returned mutable reference; the `Other` variant (where `krate_mut` is
`None`) is left unchanged. -/
def withKrate : BuildRuleType → String → BuildRuleType
  | .RustBinary r, k => .RustBinary { r with krate := k }
  | .RustLibrary r, k => .RustLibrary { r with krate := k }
  | .RustTest r, k => .RustTest { r with krate := k }
  | .PrebuiltRustLibrary r, k => .PrebuiltRustLibrary { r with krate := k }
  | .Other, _ => .Other

/-- `BuildRuleType::is_supported` (`src/buck.rs:49-56`). -/
def is_supported : BuildRuleType → Bool
  | .RustBinary _ | .RustLibrary _ | .RustTest _ => true
  | _ => false

/-- `BuildRuleType::is_library` (`src/buck.rs:68-73`). -/
def is_library : BuildRuleType → Bool
  | .RustLibrary _ | .PrebuiltRustLibrary _ => true
  | _ => false

/-- Modelled from the spec: `BuildRuleType::is_binary` is called by
`translate_buildfile` (`src/translate.rs:80`) but is not defined in the
sources. Per §4.4 a rule is partitioned into `executables` when it is a
non-library rule that builds an executable, with test rules filtered out
separately through `is_test`; the executable-producing variants are
`RustBinary` and `RustTest`. -/
def is_binary : BuildRuleType → Bool
  | .RustBinary _ | .RustTest _ => true
  | _ => false

/-- Modelled from the spec: `BuildRuleType::is_test` is called by
`translate_buildfile` (`src/translate.rs:80`) but is not defined in the
sources; per §4.4, Test-variant rules are ignored entirely. -/
def is_test : BuildRuleType → Bool
  | .RustTest _ => true
  | _ => false

/-- The shared destructuring at the top of `BuildRuleType::crate_root`
(`src/buck.rs:77-84`): `(srcs, crate_root, krate)` for the `RustBinary`,
`RustLibrary` and `RustTest` variants, `None?` otherwise. -/
def ruleParts : BuildRuleType → Option (List BuckPath × BuckPath × String)
  | .RustBinary r => some (r.srcs, r.crate_root, r.krate)
  | .RustLibrary r => some (r.srcs, r.crate_root, r.krate)
  | .RustTest r => some (r.srcs, r.crate_root, r.krate)
  | _ => none

end BuildRuleType

/-- Rust's `Iterator::min_by_key` on the component count: fold keeping the
current minimum, replacing it only on a strictly smaller key, so the first
element attaining the minimum is returned. The triples are
`(components().count(), path, file_name)` as built by the `filter_map` in
`crate_root`. -/
def minByCountFold (x : Nat × BuckPath × String) (xs : List (Nat × BuckPath × String)) :
    Nat × BuckPath × String :=
  xs.foldl (fun acc y => if y.1 < acc.1 then y else acc) x

/-- The `shortest_path_for_filename` closure of `BuildRuleType::crate_root`
(`src/buck.rs:96-101`): keep the sources that have a file name, keep those
whose file name equals `file_name`, take the one with the minimal component
count (`min_by_key`), and return its path. -/
def shortest_path_for_filename (srcs : List BuckPath) (fname : String) : Option BuckPath :=
  let candidates :=
    (srcs.filterMap (fun x => (pathFileName x).map (fun y => (pathComponentCount x, x, y)))).filter
      (fun t => t.2.2 == fname)
  match candidates with
  | [] => none
  | c :: cs => some (minByCountFold c cs).2.1

namespace BuildRuleType

/-- `BuildRuleType::crate_root` (`src/buck.rs:76-106`). -/
def crate_root (t : BuildRuleType) : Option BuckPath :=
  match t.ruleParts with
  | none => none
  | some (srcs, cr, krate) =>
    if cr ≠ [] then
      some cr
    else
      let default_filename := if t.is_library then "lib.rs" else "main.rs"
      let crate_filename := krate ++ ".rs"
      (shortest_path_for_filename srcs default_filename).orElse
        (fun _ => shortest_path_for_filename srcs crate_filename)

end BuildRuleType

/-- The spec's shallowest-match search (§4.2 steps 3-4), in its words:
among the sources whose file-name component equals `fname`, the first one
(in input order) whose component count is minimal among the matches. -/
def specShallowestMatch (srcs : List BuckPath) (fname : String) : Option BuckPath :=
  let ms := srcs.filter (fun p => pathFileName p == some fname)
  ms.find? (fun p => ms.all (fun q => pathComponentCount p ≤ pathComponentCount q))

/-- The path-level residue of the `min_by_key` fold: keep the current path,
replacing it only by a strictly shallower one. -/
def firstShallowest (x : BuckPath) (xs : List BuckPath) : BuckPath :=
  xs.foldl (fun acc y => if pathComponentCount y < pathComponentCount acc then y else acc) x

theorem firstShallowest_cons (x y : BuckPath) (ys : List BuckPath) :
    firstShallowest x (y :: ys) =
      firstShallowest (if pathComponentCount y < pathComponentCount x then y else x) ys := by
  unfold firstShallowest
  rw [List.foldl_cons]

theorem find?_congr_mem {α : Type} {p q : α → Bool} :
    ∀ (l : List α), (∀ a ∈ l, p a = q a) → l.find? p = l.find? q
  | [], _ => rfl
  | a :: l, h => by
    have ha : p a = q a := h a (List.mem_cons_self a l)
    by_cases hp : p a = true
    · rw [List.find?_cons_of_pos l hp, List.find?_cons_of_pos l (by rw [← ha]; exact hp)]
    · rw [List.find?_cons_of_neg l hp, List.find?_cons_of_neg l (by rw [← ha]; exact hp)]
      exact find?_congr_mem l (fun b hb => h b (List.mem_cons_of_mem a hb))

/-- The `filter_map`/`filter` chain of `crate_root` produces exactly the
matching sources, tagged with their component counts. -/
theorem crate_root_candidates_eq (fname : String) :
    ∀ (srcs : List BuckPath),
      ((srcs.filterMap
          (fun x => (pathFileName x).map (fun y => (pathComponentCount x, x, y)))).filter
        (fun t => t.2.2 == fname))
      = (srcs.filter (fun p => pathFileName p == some fname)).map
          (fun p => (pathComponentCount p, p, fname))
  | [] => rfl
  | x :: xs => by
    cases hx : pathFileName x with
    | none =>
      simp [List.filterMap_cons, List.filter_cons, hx, crate_root_candidates_eq fname xs]
    | some y =>
      by_cases hy : y = fname
      · subst hy
        simp [List.filterMap_cons, List.filter_cons, hx, crate_root_candidates_eq y xs]
      · simp [List.filterMap_cons, List.filter_cons, hx, hy,
          crate_root_candidates_eq fname xs]

/-- The `min_by_key` fold over the tagged matches computes
`firstShallowest` on the underlying paths. -/
theorem minByCountFold_map (fname : String) :
    ∀ (xs : List BuckPath) (x : BuckPath),
      minByCountFold (pathComponentCount x, x, fname)
          (xs.map (fun p => (pathComponentCount p, p, fname)))
        = (pathComponentCount (firstShallowest x xs), firstShallowest x xs, fname)
  | [], x => rfl
  | y :: ys, x => by
    unfold minByCountFold
    rw [List.map_cons, List.foldl_cons, firstShallowest_cons]
    by_cases h : pathComponentCount y < pathComponentCount x
    · simp only [h, if_true, if_pos h]
      exact minByCountFold_map fname ys y
    · simp only [h, if_false, if_neg h]
      exact minByCountFold_map fname ys x

/-- A first-strict-minimum fold returns the first element of the list that
attains the minimal component count: the spec's tie-breaking rule. -/
theorem firstShallowest_eq_find? :
    ∀ (xs : List BuckPath) (x : BuckPath),
      some (firstShallowest x xs)
        = (x :: xs).find?
            (fun p => (x :: xs).all (fun q => pathComponentCount p ≤ pathComponentCount q))
  | [], x => by
    rw [firstShallowest, List.foldl_nil, List.find?_cons_of_pos]
    simp
  | y :: ys, x => by
    rw [firstShallowest_cons]
    by_cases h : pathComponentCount y < pathComponentCount x
    · rw [if_pos h, firstShallowest_eq_find? ys y]
      have hstep :
          List.find?
              (fun p => (x :: y :: ys).all
                (fun q => pathComponentCount p ≤ pathComponentCount q)) (x :: y :: ys)
            = List.find?
              (fun p => (x :: y :: ys).all
                (fun q => pathComponentCount p ≤ pathComponentCount q)) (y :: ys) := by
        apply List.find?_cons_of_neg
        intro hcontra
        simp only [List.all_cons, Bool.and_eq_true, decide_eq_true_eq] at hcontra
        omega
      rw [hstep]
      apply find?_congr_mem
      intro a ha
      simp only [List.all_cons]
      cases hB : ((decide (pathComponentCount a ≤ pathComponentCount y)) &&
          ys.all (fun q => pathComponentCount a ≤ pathComponentCount q)) with
      | false => simp [hB]
      | true =>
        have hay : pathComponentCount a ≤ pathComponentCount y := by
          have := (Bool.and_eq_true _ _).mp hB
          simpa using this.1
        have hax : pathComponentCount a ≤ pathComponentCount x := by omega
        simp [hB, hax]
    · rw [if_neg h]
      rw [firstShallowest_eq_find? ys x]
      cases hb : ys.all (fun q => decide (pathComponentCount x ≤ pathComponentCount q)) with
      | true =>
        have h1 :
            List.find?
                (fun p => (x :: ys).all
                  (fun q => pathComponentCount p ≤ pathComponentCount q)) (x :: ys)
              = some x := by
          apply List.find?_cons_of_pos
          simp only [List.all_cons, Bool.and_eq_true, decide_eq_true_eq]
          exact ⟨le_refl _, by simpa using List.all_eq_true.mp hb⟩
        have h2 :
            List.find?
                (fun p => (x :: y :: ys).all
                  (fun q => pathComponentCount p ≤ pathComponentCount q)) (x :: y :: ys)
              = some x := by
          apply List.find?_cons_of_pos
          simp only [List.all_cons, Bool.and_eq_true, decide_eq_true_eq]
          refine ⟨le_refl _, by omega, ?_⟩
          simpa using List.all_eq_true.mp hb
        rw [h1, h2]
      | false =>
        obtain ⟨q, hq, hqlt⟩ := List.all_eq_false.mp hb
        simp only [decide_eq_true_eq] at hqlt
        have h1 :
            List.find?
                (fun p => (x :: ys).all
                  (fun q => pathComponentCount p ≤ pathComponentCount q)) (x :: ys)
              = List.find?
                (fun p => (x :: ys).all
                  (fun q => pathComponentCount p ≤ pathComponentCount q)) ys := by
          apply List.find?_cons_of_neg
          intro hcontra
          simp only [List.all_cons, Bool.and_eq_true, decide_eq_true_eq,
            List.all_eq_true] at hcontra
          obtain ⟨-, hall⟩ := hcontra
          have := hall q hq
          simp only [decide_eq_true_eq] at this
          omega
        have h2 :
            List.find?
                (fun p => (x :: y :: ys).all
                  (fun q => pathComponentCount p ≤ pathComponentCount q)) (x :: y :: ys)
              = List.find?
                (fun p => (x :: y :: ys).all
                  (fun q => pathComponentCount p ≤ pathComponentCount q)) (y :: ys) := by
          apply List.find?_cons_of_neg
          intro hcontra
          simp only [List.all_cons, Bool.and_eq_true, decide_eq_true_eq,
            List.all_eq_true] at hcontra
          obtain ⟨-, -, hall⟩ := hcontra
          have := hall q hq
          simp only [decide_eq_true_eq] at this
          omega
        have h3 :
            List.find?
                (fun p => (x :: y :: ys).all
                  (fun q => pathComponentCount p ≤ pathComponentCount q)) (y :: ys)
              = List.find?
                (fun p => (x :: y :: ys).all
                  (fun q => pathComponentCount p ≤ pathComponentCount q)) ys := by
          apply List.find?_cons_of_neg
          intro hcontra
          simp only [List.all_cons, Bool.and_eq_true, decide_eq_true_eq,
            List.all_eq_true] at hcontra
          obtain ⟨hyx, -, hall⟩ := hcontra
          have := hall q hq
          simp only [decide_eq_true_eq] at this
          omega
        rw [h1, h2, h3]
        apply find?_congr_mem
        intro a ha
        simp only [List.all_cons]
        by_cases hax : pathComponentCount a ≤ pathComponentCount x
        · have hay : pathComponentCount a ≤ pathComponentCount y := by omega
          simp [hax, hay]
        · simp [hax]

/-- The source's `shortest_path_for_filename` closure agrees with the
spec's shallowest-first-match description. -/
theorem shortest_path_eq_spec (srcs : List BuckPath) (fname : String) :
    shortest_path_for_filename srcs fname = specShallowestMatch srcs fname := by
  unfold shortest_path_for_filename specShallowestMatch
  rw [crate_root_candidates_eq]
  cases hms : srcs.filter (fun p => pathFileName p == some fname) with
  | nil => rfl
  | cons m ms =>
    rw [List.map_cons]
    show some (minByCountFold (pathComponentCount m, m, fname)
        (ms.map (fun p => (pathComponentCount p, p, fname)))).2.1
      = (m :: ms).find?
          (fun p => (m :: ms).all (fun q => pathComponentCount p ≤ pathComponentCount q))
    rw [minByCountFold_map, firstShallowest_eq_find?]

/-- C2: for every rule of Executable, Library, or Test variant whose
crate-root override is empty, `crate_root` returns the shallowest source
whose file name is `lib.rs` (for library variants) or `main.rs` (otherwise),
ties broken by the first minimal-depth match in input order; failing that it
repeats the search with `"{module_name}.rs"`; failing that it returns no
entry point. -/
theorem crate_root_shallowest_match (t : BuildRuleType)
    (srcs : List BuckPath) (cr : BuckPath) (k : String)
    (hparts : t.ruleParts = some (srcs, cr, k)) (hcr : cr = []) :
    t.crate_root =
      ((specShallowestMatch srcs (if t.is_library then "lib.rs" else "main.rs")).orElse
        (fun _ => specShallowestMatch srcs (k ++ ".rs"))) := by
  unfold BuildRuleType.crate_root
  rw [hparts]
  subst hcr
  simp [shortest_path_eq_spec]

/-- Witness for C2 at a concrete executable rule. -/
theorem crate_root_shallowest_match_witness :
    (BuildRuleType.RustBinary
        { RustBinaryRule.default with
            srcs := [["some", "main.rs"], ["main.rs"]] }).crate_root =
      ((specShallowestMatch [["some", "main.rs"], ["main.rs"]]
          (if (BuildRuleType.RustBinary
              { RustBinaryRule.default with
                  srcs := [["some", "main.rs"], ["main.rs"]] }).is_library
            then "lib.rs" else "main.rs")).orElse
        (fun _ => specShallowestMatch [["some", "main.rs"], ["main.rs"]] ("" ++ ".rs"))) :=
  crate_root_shallowest_match _ _ _ _ rfl rfl

/-- C3: for every rule of Executable, Library, or Test variant whose
crate-root override is non-empty, `crate_root` returns the override
verbatim, whatever the source list contains. -/
theorem crate_root_override_verbatim (t : BuildRuleType)
    (srcs : List BuckPath) (cr : BuckPath) (k : String)
    (hparts : t.ruleParts = some (srcs, cr, k)) (hcr : cr ≠ []) :
    t.crate_root = some cr := by
  unfold BuildRuleType.crate_root
  rw [hparts]
  simp [hcr]

/-- Witness for C3: an override that is absent from the source list is
still returned verbatim. -/
theorem crate_root_override_verbatim_witness :
    (BuildRuleType.RustBinary
        { RustBinaryRule.default with
            srcs := [["src", "main.rs"]]
            crate_root := ["override.rs"] }).crate_root = some ["override.rs"] :=
  crate_root_override_verbatim _ _ _ _ rfl (by decide)

/-- The normalization loop of `from_bytes` (`src/buck.rs:364-369`) applied
to one rule: when `krate_mut` returns a field and its value is empty, the
field is assigned the rule's `name`. -/
def normalizeRule (r : BuildRule) : BuildRule :=
  match r.typ.krateOf with
  | some k => if k.isEmpty then { r with typ := r.typ.withKrate r.common.name } else r
  | none => r

/-- The whole normalization pass of `from_bytes` over the rule map
(`rules.values_mut()`: values rewritten in place, keys untouched). -/
def normalizeRules (rules : Rules) : Rules :=
  rules.map (fun p => (p.1, normalizeRule p.2))

/-- The variant payload with its `crate` field blanked; two payloads agree
on every field other than `crate` exactly when their images agree. -/
def BuildRuleType.eraseKrate (t : BuildRuleType) : BuildRuleType := t.withKrate ""

/-- The per-rule content of C8. -/
theorem normalizeRule_spec (r : BuildRule) :
    (normalizeRule r).base_path = r.base_path ∧
    (normalizeRule r).direct_dependencies = r.direct_dependencies ∧
    (normalizeRule r).common = r.common ∧
    (normalizeRule r).typ.eraseKrate = r.typ.eraseKrate ∧
    (r.typ.krateOf = none → normalizeRule r = r) ∧
    (∀ k, r.typ.krateOf = some k → k ≠ "" → normalizeRule r = r) ∧
    (r.typ.krateOf = some "" → (normalizeRule r).typ.krateOf = some r.common.name) := by
  obtain ⟨bp, dd, c, t⟩ := r
  have hemp : ∀ s : String, ¬ s = "" → s.isEmpty = false := by
    intro s hs
    rw [Bool.eq_false_iff]
    intro hc
    exact hs ((String.isEmpty_iff s).mp hc)
  have hemp0 : ("" : String).isEmpty = true := (String.isEmpty_iff "").mpr rfl
  cases t with
  | RustBinary rb =>
    by_cases hk : rb.krate = ""
    · simp [normalizeRule, BuildRuleType.krateOf, BuildRuleType.withKrate,
        BuildRuleType.eraseKrate, hk, hemp0]
    · simp [normalizeRule, BuildRuleType.krateOf, BuildRuleType.withKrate,
        BuildRuleType.eraseKrate, hk, hemp rb.krate hk]
  | RustLibrary rb =>
    by_cases hk : rb.krate = ""
    · simp [normalizeRule, BuildRuleType.krateOf, BuildRuleType.withKrate,
        BuildRuleType.eraseKrate, hk, hemp0]
    · simp [normalizeRule, BuildRuleType.krateOf, BuildRuleType.withKrate,
        BuildRuleType.eraseKrate, hk, hemp rb.krate hk]
  | RustTest rb =>
    by_cases hk : rb.krate = ""
    · simp [normalizeRule, BuildRuleType.krateOf, BuildRuleType.withKrate,
        BuildRuleType.eraseKrate, hk, hemp0]
    · simp [normalizeRule, BuildRuleType.krateOf, BuildRuleType.withKrate,
        BuildRuleType.eraseKrate, hk, hemp rb.krate hk]
  | PrebuiltRustLibrary rb =>
    by_cases hk : rb.krate = ""
    · simp [normalizeRule, BuildRuleType.krateOf, BuildRuleType.withKrate,
        BuildRuleType.eraseKrate, hk, hemp0]
    · simp [normalizeRule, BuildRuleType.krateOf, BuildRuleType.withKrate,
        BuildRuleType.eraseKrate, hk, hemp rb.krate hk]
  | Other =>
    simp [normalizeRule, BuildRuleType.krateOf, BuildRuleType.withKrate,
      BuildRuleType.eraseKrate]

/-- C8: after rule-set construction, normalization sets every empty
module-name field to the owning rule's `name`, leaves non-empty values
unchanged, and mutates nothing else (keys, common fields, paths and all
other variant fields preserved). -/
theorem normalization_only_fills_empty_krate (rules : Rules) :
    List.Forall₂ (fun p q : BuildTarget × BuildRule =>
      q.1 = p.1 ∧
      q.2.base_path = p.2.base_path ∧
      q.2.direct_dependencies = p.2.direct_dependencies ∧
      q.2.common = p.2.common ∧
      q.2.typ.eraseKrate = p.2.typ.eraseKrate ∧
      (p.2.typ.krateOf = none → q.2 = p.2) ∧
      (∀ k, p.2.typ.krateOf = some k → k ≠ "" → q.2 = p.2) ∧
      (p.2.typ.krateOf = some "" → q.2.typ.krateOf = some p.2.common.name))
      rules (normalizeRules rules) := by
  induction rules with
  | nil => exact List.Forall₂.nil
  | cons p ps ih =>
    refine List.Forall₂.cons ?_ ih
    obtain ⟨h1, h2, h3, h4, h5, h6, h7⟩ := normalizeRule_spec p.2
    exact ⟨rfl, h1, h2, h3, h4, h5, h6, h7⟩

/-- The recognized discriminator values of `BuildRuleType`
(`#[serde(tag = "buck.type")]` with `#[serde(rename_all = "snake_case")]`). -/
def recognizedTags : List String :=
  ["rust_binary", "rust_library", "rust_test", "prebuilt_rust_library"]

/-- The variant dispatch of `BuildRuleType` deserialization: serde's
internally-tagged dispatch on the `buck.type` value with snake_case variant
names, where `#[serde(other)]` sends every unknown tag to `Other`. The
decoded per-variant payloads are parameters; the dispatch itself is total,
so no input fails on the tag alone. -/
def decodeRuleType (tag : String) (bin : RustBinaryRule) (lib : RustLibraryRule)
    (tst : RustTestRule) (preb : PrebuiltRustLibraryRule) : BuildRuleType :=
  if tag == "rust_binary" then .RustBinary bin
  else if tag == "rust_library" then .RustLibrary lib
  else if tag == "rust_test" then .RustTest tst
  else if tag == "prebuilt_rust_library" then .PrebuiltRustLibrary preb
  else .Other

/-- C9: any discriminator value outside the recognized set deserializes
successfully to the `Other` catch-all variant, for every payload; rule-kind
dispatch never fails. -/
theorem unknown_tag_becomes_other (tag : String) (h : tag ∉ recognizedTags)
    (bin : RustBinaryRule) (lib : RustLibraryRule) (tst : RustTestRule)
    (preb : PrebuiltRustLibraryRule) :
    decodeRuleType tag bin lib tst preb = BuildRuleType.Other := by
  simp only [recognizedTags, List.mem_cons, List.not_mem_nil, or_false, not_or] at h
  obtain ⟨h1, h2, h3, h4⟩ := h
  simp [decodeRuleType, h1, h2, h3, h4]

/-- Witness for C9 at the concrete unknown tag `"cxx_library"`. -/
theorem unknown_tag_becomes_other_witness :
    decodeRuleType "cxx_library" RustBinaryRule.default RustLibraryRule.default
      RustTestRule.default
      { rlib := [], krate := "", licenses := [], labels := [] } = BuildRuleType.Other :=
  unknown_tag_becomes_other "cxx_library" (by decide) _ _ _ _

/-! ## Dependency graph (`src/graph.rs`) and topological iteration
(`src/main.rs`, via `petgraph::visit::Topo`) -/

/-- `DepGraph = DiGraphMap<&BuildTarget, ()>`: a directed graph map,
embedded as its node list and unit-weight edge list in insertion order
(petgraph's `GraphMap` iterates nodes and edges in insertion order). -/
structure DepGraph where
  nodes : List BuildTarget
  edges : List (BuildTarget × BuildTarget)
deriving DecidableEq, Repr

/-- `GraphMap::add_node`: insert the node if it is not present. -/
def addNode (g : DepGraph) (n : BuildTarget) : DepGraph :=
  if n ∈ g.nodes then g else { g with nodes := g.nodes ++ [n] }

/-- `GraphMap::add_edge`: insert both endpoints, then the directed edge,
at most once. -/
def addEdge (g : DepGraph) (a b : BuildTarget) : DepGraph :=
  let g1 := addNode (addNode g a) b
  if (a, b) ∈ g1.edges then g1 else { g1 with edges := g1.edges ++ [(a, b)] }

/-- `dep_graph` (`src/graph.rs:12-23`): one node per rule identifier, one
edge from the identifier to each entry of the rule's `deps` list. -/
def dep_graph (rules : Rules) : DepGraph :=
  rules.foldl
    (fun g p => p.2.common.deps.foldl (fun g d => addEdge g p.1 d) (addNode g p.1))
    ⟨[], []⟩

/-- Whether `v` has an incoming edge (used by `Topo`'s initialisation:
`extend_with_initials` collects the nodes with no incoming edge). -/
def hasIncoming (g : DepGraph) (v : BuildTarget) : Bool :=
  g.edges.any (fun e => e.2 == v)

/-- Outgoing neighbours of `u`, in edge insertion order. -/
def succsOf (g : DepGraph) (u : BuildTarget) : List BuildTarget :=
  (g.edges.filter (fun e => e.1 == u)).map Prod.snd

/-- Incoming neighbours of `v`, in edge insertion order. -/
def predsOf (g : DepGraph) (v : BuildTarget) : List BuildTarget :=
  (g.edges.filter (fun e => e.2 == v)).map Prod.fst

/-- The loop of `petgraph::visit::Topo::next`, fuelled: pop a node from the
to-visit stack; skip it when already visited, otherwise mark it visited,
push every successor all of whose predecessors are visited, and yield it.
`out` accumulates the yielded nodes most-recent-first. -/
def topoLoop (g : DepGraph) :
    Nat → List BuildTarget → List BuildTarget → List BuildTarget → List BuildTarget
  | 0, _, _, out => out.reverse
  | _ + 1, [], _, out => out.reverse
  | fuel + 1, n :: stack, visited, out =>
    if n ∈ visited then
      topoLoop g fuel stack visited out
    else
      let visited' := n :: visited
      let ready :=
        (succsOf g n).filter (fun s => (predsOf g s).all (fun p => visited'.contains p))
      topoLoop g fuel (ready.reverse ++ stack) visited' (n :: out)

/-- The full topological iteration of `src/main.rs:46-50`
(`Topo::new` followed by `Walker::iter` until exhaustion): the stack starts
with the nodes that have no incoming edge, the last-inserted on top. The
fuel bounds the number of stack pops; every node enters the stack at most
`1 + (its in-degree)` times, so `nodes + edges + 1` pops always suffice. -/
def topo (g : DepGraph) : List BuildTarget :=
  topoLoop g (g.nodes.length + g.edges.length + 1)
    ((g.nodes.filter (fun v => !hasIncoming g v)).reverse) [] []

/-- `u` is yielded strictly before `v`: the elements after the first
occurrence of `u` include `v`. -/
def yieldsBefore (l : List BuildTarget) (u v : BuildTarget) : Bool :=
  match l with
  | [] => false
  | x :: xs => if x == u then xs.contains v else yieldsBefore xs u v

theorem mem_predsOf {g : DepGraph} {u v : BuildTarget} (h : (u, v) ∈ g.edges) :
    u ∈ predsOf g v := by
  unfold predsOf
  refine List.mem_map.mpr ⟨(u, v), ?_, rfl⟩
  rw [List.mem_filter]
  exact ⟨h, by simp⟩

theorem predsOf_eq_nil_of_not_hasIncoming {g : DepGraph} {v : BuildTarget}
    (h : hasIncoming g v = false) : predsOf g v = [] := by
  unfold hasIncoming at h
  unfold predsOf
  rw [List.map_eq_nil_iff, List.filter_eq_nil_iff]
  intro e he
  rcases List.any_eq_false.mp h e he with hne
  simpa using hne

/-- Splitting at a later element of a reversed accumulator: if `v` occurs
in `out` with `u` strictly after it, then `u` occurs strictly before `v`
in `out.reverse`. -/
theorem reverse_split {out o₁ o₂ : List BuildTarget} {u v : BuildTarget}
    (hsplit : out = o₁ ++ v :: o₂) (hu : u ∈ o₂) :
    ∃ l₁ l₂, out.reverse = l₁ ++ u :: l₂ ∧ v ∈ l₂ := by
  subst hsplit
  obtain ⟨a, b, hab⟩ := List.append_of_mem (List.mem_reverse.mpr hu)
  refine ⟨a, b ++ v :: o₁.reverse, ?_, by simp⟩
  rw [List.reverse_append, List.reverse_cons]
  rw [hab]
  simp

/-- A strictly-ordered occurrence in a duplicate-free list is detected by
`yieldsBefore`. -/
theorem yieldsBefore_of_split :
    ∀ {l l₁ l₂ : List BuildTarget} {u v : BuildTarget},
      l.Nodup → l = l₁ ++ u :: l₂ → v ∈ l₂ → yieldsBefore l u v = true := by
  intro l
  induction l with
  | nil =>
    intro l₁ l₂ u v _ heq _
    exact absurd heq.symm (List.append_ne_nil_of_right_ne_nil l₁ (List.cons_ne_nil u l₂))
  | cons x xs ih =>
    intro l₁ l₂ u v hnd heq hv
    cases l₁ with
    | nil =>
      simp only [List.nil_append, List.cons.injEq] at heq
      obtain ⟨hxu, hxs⟩ := heq
      subst hxu
      unfold yieldsBefore
      simp only [beq_self_eq_true, if_true]
      subst hxs
      simpa using hv
    | cons a l₁' =>
      simp only [List.cons_append, List.cons.injEq] at heq
      obtain ⟨hxa, hxs⟩ := heq
      have hxnotmem : x ∉ xs := (List.nodup_cons.mp hnd).1
      have hxu : x ≠ u := by
        intro hxu
        apply hxnotmem
        rw [hxs, hxu]
        exact List.mem_append.mpr (Or.inr (List.mem_cons_self _ _))
      unfold yieldsBefore
      rw [if_neg (by simpa using hxu)]
      exact ih (List.nodup_cons.mp hnd).2 hxs hv

/-- The safety invariant of the `Topo` loop: when every stacked node has
all its predecessors visited, and every yielded node was yielded after all
its predecessors, the final sequence is duplicate-free and places every
edge's source strictly before its target. -/
theorem topoLoop_inv (g : DepGraph) :
    ∀ (fuel : Nat) (stack visited out : List BuildTarget),
      visited = out →
      out.Nodup →
      (∀ x ∈ stack, ∀ p ∈ predsOf g x, p ∈ visited) →
      (∀ u v, (u, v) ∈ g.edges → v ∈ out → ∃ o₁ o₂, out = o₁ ++ v :: o₂ ∧ u ∈ o₂) →
      (topoLoop g fuel stack visited out).Nodup ∧
      ∀ u v, (u, v) ∈ g.edges → v ∈ topoLoop g fuel stack visited out →
        ∃ l₁ l₂, topoLoop g fuel stack visited out = l₁ ++ u :: l₂ ∧ v ∈ l₂
  | 0, stack, visited, out, hvo, hnd, hstack, hout => by
    constructor
    · rw [topoLoop]
      exact List.nodup_reverse.mpr hnd
    · intro u v he hv
      rw [topoLoop] at hv ⊢
      obtain ⟨o₁, o₂, hsplit, hu⟩ := hout u v he (List.mem_reverse.mp hv)
      exact reverse_split hsplit hu
  | fuel + 1, [], visited, out, hvo, hnd, hstack, hout => by
    constructor
    · rw [topoLoop]
      exact List.nodup_reverse.mpr hnd
    · intro u v he hv
      rw [topoLoop] at hv ⊢
      obtain ⟨o₁, o₂, hsplit, hu⟩ := hout u v he (List.mem_reverse.mp hv)
      exact reverse_split hsplit hu
  | fuel + 1, n :: stack, visited, out, hvo, hnd, hstack, hout => by
    rw [topoLoop]
    by_cases hn : n ∈ visited
    · rw [if_pos hn]
      exact topoLoop_inv g fuel stack visited out hvo hnd
        (fun x hx => hstack x (List.mem_cons_of_mem n hx)) hout
    · rw [if_neg hn]
      refine topoLoop_inv g fuel _ (n :: visited) (n :: out) (by rw [hvo]) ?_ ?_ ?_
      · exact List.nodup_cons.mpr ⟨hvo ▸ hn, hnd⟩
      · intro x hx p hp
        rcases List.mem_append.mp hx with hx | hx
        · have hx' := List.mem_reverse.mp hx
          rw [List.mem_filter] at hx'
          have := List.all_eq_true.mp hx'.2 p hp
          simpa using this
        · exact List.mem_cons_of_mem n (hstack x (List.mem_cons_of_mem n hx) p hp)
      · intro u v he hv
        rcases List.mem_cons.mp hv with hv | hv
        · subst hv
          refine ⟨[], out, rfl, ?_⟩
          have hu : u ∈ predsOf g v := mem_predsOf he
          have := hstack v (List.mem_cons_self v stack) u hu
          rw [hvo] at this
          exact this
        · obtain ⟨o₁, o₂, hsplit, hu⟩ := hout u v he hv
          exact ⟨n :: o₁, o₂, by rw [hsplit]; rfl, hu⟩

/-- C1 (amended): for every dependency graph built by `dep_graph`, the
topological iteration yields every rule identifier *before* every
identifier it depends on that is yielded at all: dependents first,
dependencies after them. -/
theorem topo_yields_dependents_first (rules : Rules) (u v : BuildTarget)
    (he : (u, v) ∈ (dep_graph rules).edges) (hv : v ∈ topo (dep_graph rules)) :
    yieldsBefore (topo (dep_graph rules)) u v = true := by
  set g := dep_graph rules with hg
  have hinv := topoLoop_inv g (g.nodes.length + g.edges.length + 1)
    ((g.nodes.filter (fun x => !hasIncoming g x)).reverse) [] []
    rfl List.nodup_nil
    (by
      intro x hx p hp
      have hx' := List.mem_reverse.mp hx
      rw [List.mem_filter] at hx'
      have hni : hasIncoming g x = false := by
        cases hxi : hasIncoming g x with
        | false => rfl
        | true => rw [hxi] at hx'; exact absurd hx'.2 (by simp)
      rw [predsOf_eq_nil_of_not_hasIncoming hni] at hp
      exact absurd hp (List.not_mem_nil p))
    (by intro u v _ hv; exact absurd hv (List.not_mem_nil v))
  obtain ⟨hnd, hord⟩ := hinv
  obtain ⟨l₁, l₂, hsplit, hv₂⟩ := hord u v he hv
  exact yieldsBefore_of_split hnd hsplit hv₂

/-- A two-rule set in which `"a"` depends on `"b"`. -/
def rulesPair : Rules :=
  [("a", { base_path := ["dir"], direct_dependencies := [],
           common := { name := "a", deps := ["b"], visibility := [] },
           typ := .RustBinary RustBinaryRule.default }),
   ("b", { base_path := ["dir"], direct_dependencies := [],
           common := { name := "b", deps := [], visibility := [] },
           typ := .RustBinary RustBinaryRule.default })]

/-- C1 (counterexample): in the graph built from `rulesPair`, `"a"`
depends on `"b"` and both are yielded, yet the iteration yields `"a"`
first — an identifier is yielded before one of its dependencies, so the
iteration does not yield identifiers only after their dependencies. -/
theorem topo_counterexample_dependency_yielded_after :
    ("a", "b") ∈ (dep_graph rulesPair).edges ∧
    "a" ∈ topo (dep_graph rulesPair) ∧
    "b" ∈ topo (dep_graph rulesPair) ∧
    yieldsBefore (topo (dep_graph rulesPair)) "b" "a" = false ∧
    topo (dep_graph rulesPair) = ["a", "b"] := by decide

/-- Witness for the amended C1 at `rulesPair`: the dependent `"a"` is
yielded before its dependency `"b"`. -/
theorem topo_yields_dependents_first_witness :
    yieldsBefore (topo (dep_graph rulesPair)) "a" "b" = true :=
  topo_yields_dependents_first rulesPair "a" "b" (by decide) (by decide)

theorem edges_addNode (g : DepGraph) (n : BuildTarget) :
    (addNode g n).edges = g.edges := by
  unfold addNode
  split <;> rfl

theorem mem_edges_addEdge (g : DepGraph) (a b : BuildTarget)
    (e : BuildTarget × BuildTarget) :
    e ∈ (addEdge g a b).edges ↔ e ∈ g.edges ∨ e = (a, b) := by
  have h1 : (addNode (addNode g a) b).edges = g.edges := by
    rw [edges_addNode, edges_addNode]
  unfold addEdge
  by_cases h : (a, b) ∈ (addNode (addNode g a) b).edges
  · rw [if_pos h]
    rw [h1] at h ⊢
    constructor
    · exact Or.inl
    · rintro (he | rfl)
      · exact he
      · exact h
  · rw [if_neg h]
    show e ∈ (addNode (addNode g a) b).edges ++ [(a, b)] ↔ _
    rw [h1, List.mem_append, List.mem_singleton]

theorem mem_edges_depsFold (t : BuildTarget) :
    ∀ (deps : List BuildTarget) (g : DepGraph) (e : BuildTarget × BuildTarget),
      e ∈ (deps.foldl (fun g d => addEdge g t d) g).edges ↔
        e ∈ g.edges ∨ ∃ d ∈ deps, e = (t, d)
  | [], g, e => by simp
  | d :: ds, g, e => by
    rw [List.foldl_cons, mem_edges_depsFold t ds (addEdge g t d) e, mem_edges_addEdge]
    constructor
    · rintro ((he | rfl) | ⟨d', hd', rfl⟩)
      · exact Or.inl he
      · exact Or.inr ⟨d, List.mem_cons_self _ _, rfl⟩
      · exact Or.inr ⟨d', List.mem_cons_of_mem _ hd', rfl⟩
    · rintro (he | ⟨d', hd', rfl⟩)
      · exact Or.inl (Or.inl he)
      · rcases List.mem_cons.mp hd' with rfl | hd'
        · exact Or.inl (Or.inr rfl)
        · exact Or.inr ⟨d', hd', rfl⟩

theorem mem_edges_rulesFold :
    ∀ (rules : Rules) (g : DepGraph) (e : BuildTarget × BuildTarget),
      e ∈ (rules.foldl
          (fun g p => p.2.common.deps.foldl (fun g d => addEdge g p.1 d) (addNode g p.1))
          g).edges ↔
        e ∈ g.edges ∨ ∃ p ∈ rules, ∃ d ∈ p.2.common.deps, e = (p.1, d)
  | [], g, e => by simp
  | p :: ps, g, e => by
    rw [List.foldl_cons, mem_edges_rulesFold ps _ e, mem_edges_depsFold, edges_addNode]
    constructor
    · rintro ((he | ⟨d, hd, rfl⟩) | ⟨p', hp', d, hd, rfl⟩)
      · exact Or.inl he
      · exact Or.inr ⟨p, List.mem_cons_self _ _, d, hd, rfl⟩
      · exact Or.inr ⟨p', List.mem_cons_of_mem _ hp', d, hd, rfl⟩
    · rintro (he | ⟨p', hp', d, hd, rfl⟩)
      · exact Or.inl (Or.inl he)
      · rcases List.mem_cons.mp hp' with rfl | hp'
        · exact Or.inl (Or.inr ⟨d, hd, rfl⟩)
        · exact Or.inr ⟨p', hp', d, hd, rfl⟩

/-- C10: the builder's graph depends only on each rule's `deps` list: the
graph is unchanged under arbitrary rewriting of every rule's
`direct_dependencies` field, and an edge `(u, v)` exists exactly when some
rule keyed `u` lists `v` in its `deps`. -/
theorem dep_graph_edges_from_deps_only (rules : Rules)
    (f : BuildTarget × BuildRule → List BuildTarget) :
    dep_graph (rules.map (fun p => (p.1, { p.2 with direct_dependencies := f p })))
        = dep_graph rules ∧
    ∀ u v : BuildTarget,
      ((u, v) ∈ (dep_graph rules).edges ↔
        ∃ r : BuildRule, (u, r) ∈ rules ∧ v ∈ r.common.deps) := by
  constructor
  · unfold dep_graph
    rw [List.foldl_map]
  · intro u v
    unfold dep_graph
    rw [mem_edges_rulesFold]
    constructor
    · rintro (he | ⟨p, hp, d, hd, hpair⟩)
      · exact absurd he (List.not_mem_nil _)
      · obtain ⟨h1, h2⟩ := Prod.mk.injEq .. ▸ hpair
        subst h1
        subst h2
        exact ⟨p.2, hp, hd⟩
    · rintro ⟨r, hr, hv⟩
      exact Or.inr ⟨(u, r), hr, v, hv, rfl⟩

/-! ## Manifest synthesis (`src/translate.rs`) -/

/-- The failure outcomes of manifest synthesis. `unsupportedGrouping` and
`noDefaultTarget` embed the two `failure::format_err!` returns of
`translate_buildfile` (with their interpolated context); `panickedUnwrapNone`
embeds a Rust panic from `Option::unwrap` on `None` (the code unwraps every
`crate_root()`/`krate()` result), which likewise aborts the group's
synthesis without producing manifest text. -/
inductive TranslateError where
  | unsupportedGrouping (dir : BuckPath) (names : List String)
  | noDefaultTarget (dir : BuckPath)
  | panickedUnwrapNone
deriving DecidableEq, Repr

/-- `Path::display()` on an embedded path: components joined by `/`. -/
def displayPath (p : BuckPath) : String := String.intercalate "/" p

/-- The `toml_header!` text of `src/translate.rs:29-37` with the package
name interpolated. -/
def toml_header (pkg : String) : String :=
  "[package]\nname = \"" ++ pkg ++
    "\"\nversion = \"0.1.0\"\nauthors = [\"Example <author@example.com>\"]\n"

/-- The `libs` partition of `translate_buildfile` (`src/translate.rs:72-76`). -/
def libsOf (rules : List (BuildTarget × BuildRule)) : List BuildRule :=
  (rules.map Prod.snd).filter (fun r => r.typ.is_library)

/-- The `bins` partition of `translate_buildfile` (`src/translate.rs:77-81`). -/
def binsOf (rules : List (BuildTarget × BuildRule)) : List BuildRule :=
  (rules.map Prod.snd).filter (fun r => r.typ.is_binary && !r.typ.is_test)

/-- The `default_bin` closure (`src/translate.rs:96-99`): find the first
executable whose resolved entry point has file name `main.rs`. The search
unwraps each candidate's `crate_root()`, so a candidate with no entry
point reached before a match panics. -/
def default_bin : List BuildRule → Except TranslateError (Option BuildRule)
  | [] => .ok none
  | b :: rest =>
    match b.typ.crate_root with
    | none => .error .panickedUnwrapNone
    | some cr =>
      if pathFileName cr == some "main.rs" then .ok (some b) else default_bin rest

/-- The `[lib]` block of `translate_buildfile` (`src/translate.rs:112-122`),
emitted for `libs.get(0)` when present; both `krate()` and `crate_root()`
are unwrapped. -/
def render_lib : Option BuildRule → Except TranslateError String
  | none => .ok ""
  | some l =>
    match l.typ.krateOf with
    | none => .error .panickedUnwrapNone
    | some k =>
      match l.typ.crate_root with
      | none => .error .panickedUnwrapNone
      | some cr =>
        .ok ("\n[lib]\nname = \"" ++ k ++ "\"\npath = \"" ++ displayPath cr ++ "\"\n")

/-- The `[[bin]]` loop of `translate_buildfile` (`src/translate.rs:124-134`),
one block per executable in input order; `krate()` and `crate_root()` are
unwrapped for each. -/
def render_bins : List BuildRule → Except TranslateError String
  | [] => .ok ""
  | b :: rest =>
    match b.typ.krateOf with
    | none => .error .panickedUnwrapNone
    | some k =>
      match b.typ.crate_root with
      | none => .error .panickedUnwrapNone
      | some cr =>
        match render_bins rest with
        | .error e => .error e
        | .ok tail =>
          .ok ("\n[[bin]]\nname = \"" ++ k ++ "\"\npath = \"" ++ displayPath cr ++
            "\"\n" ++ tail)

/-- The `default_rule` selection of `translate_buildfile`
(`src/translate.rs:96-105`): `libs.get(0)`, else the first executable
resolving to `main.rs` (`default_bin`), else `bins.get(0)`, else the
`NoDefaultTarget` error. -/
def select_default (dir : BuckPath) (libs bins : List BuildRule) :
    Except TranslateError BuildRule :=
  match libs.head? with
  | some l => .ok l
  | none =>
    match default_bin bins with
    | .error e => .error e
    | .ok (some b) => .ok b
    | .ok none =>
      match bins.head? with
      | some b => .ok b
      | none => .error (.noDefaultTarget dir)

/-- `translate_buildfile` (`src/translate.rs:68-139`): partition the
directory group, reject multiple libraries, select the default rule, then
render the header, the optional `[lib]` block and the `[[bin]]` blocks. -/
def translate_buildfile (dir : BuckPath) (rules : List (BuildTarget × BuildRule)) :
    Except TranslateError String :=
  if (libsOf rules).length > 1 then
    .error (.unsupportedGrouping dir ((libsOf rules).map (fun r => r.common.name)))
  else
    match select_default dir (libsOf rules) (binsOf rules) with
    | .error e => .error e
    | .ok default_rule =>
      match default_rule.typ.krateOf with
      | none => .error .panickedUnwrapNone
      | some pkg_name =>
        match render_lib (libsOf rules).head? with
        | .error e => .error e
        | .ok lib_block =>
          match render_bins (binsOf rules) with
          | .error e => .error e
          | .ok bin_blocks => .ok (toml_header pkg_name ++ (lib_block ++ bin_blocks))

/-- The loop of `translate_rules` (`src/translate.rs:54-63`) over the
directory groups of `rules_by_dir`, in the (arbitrary) map iteration order
captured by the list: each successful group writes
`<root>/<dir>/Cargo.toml`, and the first failing group aborts the loop with
its error (the `?` operator), leaving the earlier writes in place and the
later groups untranslated. Returns the `(directory, contents)` pairs
written and the aborting error, if any. -/
def translate_groups :
    List (BuckPath × List (BuildTarget × BuildRule)) →
      List (BuckPath × String) × Option TranslateError
  | [] => ([], none)
  | (dir, rs) :: rest =>
    match translate_buildfile dir rs with
    | .error e => ([], some e)
    | .ok contents =>
      let (written, err) := translate_groups rest
      ((dir, contents) :: written, err)

/-- The spec's default-rule precedence (§4.4), in its words: the sole
library if present; else the first executable whose resolved entry point's
file name equals the conventional `main.rs`; else the first executable in
input order; none when the group has neither. -/
def specDefaultRule (libs bins : List BuildRule) : Option BuildRule :=
  libs.head?.orElse (fun _ =>
    (bins.find?
        (fun b => (b.typ.crate_root.bind pathFileName) == some "main.rs")).orElse
      (fun _ => bins.head?))

theorem default_bin_error_eq :
    ∀ (bs : List BuildRule) (e : TranslateError),
      default_bin bs = .error e → e = .panickedUnwrapNone
  | [], e => by
    intro h
    exact Except.noConfusion h
  | b :: rest, e => by
    intro h
    unfold default_bin at h
    split at h
    · injection h with h
      exact h.symm
    · split at h
      · exact Except.noConfusion h
      · exact default_bin_error_eq rest e h

theorem default_bin_ok_some :
    ∀ (bs : List BuildRule) (b : BuildRule),
      default_bin bs = .ok (some b) →
        bs.find? (fun r => (r.typ.crate_root.bind pathFileName) == some "main.rs")
          = some b
  | [], b => by
    intro h
    injection h
  | b₀ :: rest, b => by
    intro h
    unfold default_bin at h
    split at h
    · exact Except.noConfusion h
    · rename_i cr hcr
      split at h
      · rename_i hm
        injection h with h
        injection h with h
        subst h
        rw [List.find?_cons_of_pos]
        simp only [hcr, Option.some_bind]
        exact hm
      · rename_i hm
        rw [List.find?_cons_of_neg]
        · exact default_bin_ok_some rest b h
        · simp only [hcr, Option.some_bind]
          exact hm

theorem default_bin_ok_none :
    ∀ (bs : List BuildRule),
      default_bin bs = .ok none →
        bs.find? (fun r => (r.typ.crate_root.bind pathFileName) == some "main.rs")
          = none
  | [] => by
    intro _
    rfl
  | b₀ :: rest => by
    intro h
    unfold default_bin at h
    split at h
    · exact Except.noConfusion h
    · rename_i cr hcr
      split at h
      · injection h with h
        exact Option.noConfusion h
      · rename_i hm
        rw [List.find?_cons_of_neg]
        · exact default_bin_ok_none rest h
        · simp only [hcr, Option.some_bind]
          exact hm

theorem render_lib_error_eq (o : Option BuildRule) (e : TranslateError)
    (h : render_lib o = .error e) : e = .panickedUnwrapNone := by
  cases o with
  | none =>
    simp only [render_lib] at h
    exact Except.noConfusion h
  | some l =>
    simp only [render_lib] at h
    split at h
    · injection h with h
      exact h.symm
    · split at h
      · injection h with h
        exact h.symm
      · exact Except.noConfusion h

theorem render_bins_error_eq :
    ∀ (bs : List BuildRule) (e : TranslateError),
      render_bins bs = .error e → e = .panickedUnwrapNone
  | [], e => by
    intro h
    exact Except.noConfusion h
  | b :: rest, e => by
    intro h
    simp only [render_bins] at h
    split at h
    · injection h with h
      exact h.symm
    · split at h
      · injection h with h
        exact h.symm
      · split at h
        · rename_i e' hrec
          injection h with h
          subst h
          exact render_bins_error_eq rest e' hrec
        · exact Except.noConfusion h

theorem render_lib_panics (l : BuildRule) (h : l.typ.crate_root = none) :
    render_lib (some l) = .error .panickedUnwrapNone := by
  simp only [render_lib]
  cases hk : l.typ.krateOf with
  | none => rfl
  | some k => rw [h]

theorem render_bins_panics :
    ∀ (bs : List BuildRule),
      (∃ b ∈ bs, b.typ.crate_root = none) →
        render_bins bs = .error .panickedUnwrapNone
  | [], h => absurd h (by simp)
  | b :: rest, h => by
    simp only [render_bins]
    cases hk : b.typ.krateOf with
    | none => rfl
    | some k =>
      cases hcr : b.typ.crate_root with
      | none => rfl
      | some cr =>
        obtain ⟨b', hb', hroot⟩ := h
        rcases List.mem_cons.mp hb' with rfl | hb'
        · rw [hcr] at hroot
          exact Option.noConfusion hroot
        · rw [render_bins_panics rest ⟨b', hb', hroot⟩]

theorem krateOf_isSome_of_is_library (t : BuildRuleType) (h : t.is_library = true) :
    ∃ k, t.krateOf = some k := by
  cases t with
  | RustBinary r => exact ⟨r.krate, rfl⟩
  | RustLibrary r => exact ⟨r.krate, rfl⟩
  | RustTest r => exact ⟨r.krate, rfl⟩
  | PrebuiltRustLibrary r => exact ⟨r.krate, rfl⟩
  | Other => exact absurd h (by simp [BuildRuleType.is_library])

theorem krateOf_isSome_of_executable (t : BuildRuleType)
    (h : (t.is_binary && !t.is_test) = true) : ∃ k, t.krateOf = some k := by
  cases t with
  | RustBinary r => exact ⟨r.krate, rfl⟩
  | RustLibrary r => exact ⟨r.krate, rfl⟩
  | RustTest r => exact ⟨r.krate, rfl⟩
  | PrebuiltRustLibrary r => exact ⟨r.krate, rfl⟩
  | Other =>
    exact absurd h (by simp [BuildRuleType.is_binary, BuildRuleType.is_test])

theorem select_default_noDefault_iff (dir : BuckPath) (libs bins : List BuildRule) :
    select_default dir libs bins = .error (.noDefaultTarget dir) ↔
      (libs = [] ∧ bins = []) := by
  constructor
  · intro h
    cases libs with
    | cons l ls =>
      exact Except.noConfusion h
    | nil =>
      refine ⟨rfl, ?_⟩
      unfold select_default at h
      split at h
      · rename_i l hhead
        exact Option.noConfusion hhead
      · split at h
        · rename_i e hdb
          injection h with h
          rw [h] at hdb
          exact absurd (default_bin_error_eq bins _ hdb) (by simp)
        · exact Except.noConfusion h
        · split at h
          · exact Except.noConfusion h
          · rename_i hhead
            exact List.head?_eq_none_iff.mp hhead
  · rintro ⟨rfl, rfl⟩
    rfl

theorem select_default_ok_spec (dir : BuckPath) (libs bins : List BuildRule)
    (r : BuildRule) (h : select_default dir libs bins = .ok r) :
    specDefaultRule libs bins = some r := by
  cases libs with
  | cons l ls =>
    unfold select_default at h
    injection h with h
    subst h
    rfl
  | nil =>
    unfold select_default at h
    unfold specDefaultRule
    split at h
    · rename_i l hhead
      exact Option.noConfusion hhead
    · split at h
      · exact Except.noConfusion h
      · rename_i b hdb
        injection h with h
        subst h
        rw [default_bin_ok_some bins b hdb]
        rfl
      · rename_i hdb
        split at h
        · rename_i b hhead
          injection h with h
          subst h
          rw [default_bin_ok_none bins hdb]
          exact hhead
        · exact Except.noConfusion h

/-! Evaluation lemmas for `translate_buildfile`, one per control path. -/

theorem tb_sel_error (dir : BuckPath) (rules : List (BuildTarget × BuildRule))
    (e : TranslateError)
    (hlen : ¬ (libsOf rules).length > 1)
    (hsel : select_default dir (libsOf rules) (binsOf rules) = .error e) :
    translate_buildfile dir rules = .error e := by
  unfold translate_buildfile
  rw [if_neg hlen]
  simp only [hsel]

theorem tb_krate_none (dir : BuckPath) (rules : List (BuildTarget × BuildRule))
    (d : BuildRule)
    (hlen : ¬ (libsOf rules).length > 1)
    (hsel : select_default dir (libsOf rules) (binsOf rules) = .ok d)
    (hk : d.typ.krateOf = none) :
    translate_buildfile dir rules = .error .panickedUnwrapNone := by
  unfold translate_buildfile
  rw [if_neg hlen]
  simp only [hsel, hk]

theorem tb_renderlib_error (dir : BuckPath) (rules : List (BuildTarget × BuildRule))
    (d : BuildRule) (k : String) (e : TranslateError)
    (hlen : ¬ (libsOf rules).length > 1)
    (hsel : select_default dir (libsOf rules) (binsOf rules) = .ok d)
    (hk : d.typ.krateOf = some k)
    (hrl : render_lib (libsOf rules).head? = .error e) :
    translate_buildfile dir rules = .error e := by
  unfold translate_buildfile
  rw [if_neg hlen]
  simp only [hsel, hk, hrl]

theorem tb_renderbins_error (dir : BuckPath) (rules : List (BuildTarget × BuildRule))
    (d : BuildRule) (k lb : String) (e : TranslateError)
    (hlen : ¬ (libsOf rules).length > 1)
    (hsel : select_default dir (libsOf rules) (binsOf rules) = .ok d)
    (hk : d.typ.krateOf = some k)
    (hrl : render_lib (libsOf rules).head? = .ok lb)
    (hrb : render_bins (binsOf rules) = .error e) :
    translate_buildfile dir rules = .error e := by
  unfold translate_buildfile
  rw [if_neg hlen]
  simp only [hsel, hk, hrl, hrb]

theorem tb_ok (dir : BuckPath) (rules : List (BuildTarget × BuildRule))
    (d : BuildRule) (k lb bb : String)
    (hlen : ¬ (libsOf rules).length > 1)
    (hsel : select_default dir (libsOf rules) (binsOf rules) = .ok d)
    (hk : d.typ.krateOf = some k)
    (hrl : render_lib (libsOf rules).head? = .ok lb)
    (hrb : render_bins (binsOf rules) = .ok bb) :
    translate_buildfile dir rules = .ok (toml_header k ++ (lb ++ bb)) := by
  unfold translate_buildfile
  rw [if_neg hlen]
  simp only [hsel, hk, hrl, hrb]

/-- A library rule with the given sources, for concrete inputs. -/
def mkLib (nm : String) (srcs : List BuckPath) : BuildRule :=
  { base_path := ["dir"], direct_dependencies := [],
    common := { name := nm, deps := [], visibility := [] },
    typ := .RustLibrary { RustLibraryRule.default with srcs := srcs, krate := nm } }

/-- An executable rule with the given sources, for concrete inputs. -/
def mkBin (nm : String) (srcs : List BuckPath) : BuildRule :=
  { base_path := ["dir"], direct_dependencies := [],
    common := { name := nm, deps := [], visibility := [] },
    typ := .RustBinary { RustBinaryRule.default with srcs := srcs, krate := nm } }

/-- Two libraries in one directory. -/
def groupTwoLibs : List (BuildTarget × BuildRule) :=
  [("//dir:lib1", mkLib "lib1" [["src", "lib.rs"]]),
   ("//dir:lib2", mkLib "lib2" [["src", "lib.rs"]])]

/-- A single well-formed library group. -/
def groupOneLib : List (BuildTarget × BuildRule) :=
  [("//dir:lib1", mkLib "lib1" [["src", "lib.rs"]])]

/-- A library with two executables (the repository's own test input). -/
def groupMixed : List (BuildTarget × BuildRule) :=
  [("//dir:aux_bin", mkBin "aux_bin" [["aux_bin.rs"]]),
   ("//dir:bin1", mkBin "bin1" [["src", "main.rs"]]),
   ("//dir:lib1", mkLib "lib1" [["src", "lib.rs"]])]

/-- C5: a directory group with more than one library rule fails with the
`UnsupportedGrouping` error naming the libraries, regardless of what else
the group contains. -/
theorem multiple_libs_rejected (dir : BuckPath)
    (rules : List (BuildTarget × BuildRule))
    (h : (libsOf rules).length > 1) :
    translate_buildfile dir rules =
      .error (.unsupportedGrouping dir
        ((libsOf rules).map (fun r => r.common.name))) := by
  unfold translate_buildfile
  rw [if_pos h]

/-- Witness for C5 at a two-library group. -/
theorem multiple_libs_rejected_witness :
    translate_buildfile ["dir"] groupTwoLibs =
      .error (.unsupportedGrouping ["dir"]
        ((libsOf groupTwoLibs).map (fun r => r.common.name))) :=
  multiple_libs_rejected ["dir"] groupTwoLibs (by decide)

/-- C4: the default/package-naming rule is selected with the spec's
precedence — the sole library, else the executable resolving to `main.rs`,
else the first executable — synthesis fails with `NoDefaultTarget` exactly
when the group has neither a library nor an executable, and a generated
manifest's package-name header is the selected rule's module name. -/
theorem default_rule_selection (dir : BuckPath)
    (rules : List (BuildTarget × BuildRule)) :
    ((translate_buildfile dir rules = .error (.noDefaultTarget dir)) ↔
      (libsOf rules = [] ∧ binsOf rules = [])) ∧
    (∀ s, translate_buildfile dir rules = .ok s →
      ∃ r, specDefaultRule (libsOf rules) (binsOf rules) = some r ∧
        ∃ k, r.typ.krateOf = some k ∧ ∃ rest, s = toml_header k ++ rest) := by
  by_cases hlen : (libsOf rules).length > 1
  · have htrans : translate_buildfile dir rules =
        .error (.unsupportedGrouping dir
          ((libsOf rules).map (fun r => r.common.name))) := by
      unfold translate_buildfile
      rw [if_pos hlen]
    have hne : ¬ (libsOf rules = [] ∧ binsOf rules = []) := by
      rintro ⟨h0, -⟩
      rw [h0] at hlen
      exact absurd hlen (by simp)
    rw [htrans]
    refine ⟨⟨fun hcontra => ?_, fun hc => absurd hc hne⟩,
      fun s hcontra => Except.noConfusion hcontra⟩
    injection hcontra with hcontra
    exact TranslateError.noConfusion hcontra
  · cases hsel : select_default dir (libsOf rules) (binsOf rules) with
    | error e =>
      have htrans := tb_sel_error dir rules e hlen hsel
      rw [htrans]
      constructor
      · constructor
        · intro h
          injection h with h
          rw [h] at hsel
          exact (select_default_noDefault_iff dir _ _).mp hsel
        · intro hc
          have hthis := (select_default_noDefault_iff dir _ _).mpr hc
          rw [hsel] at hthis
          injection hthis with hthis
          rw [hthis]
      · intro s hcontra
        exact Except.noConfusion hcontra
    | ok d =>
      have hne : ¬ (libsOf rules = [] ∧ binsOf rules = []) := by
        intro hc
        have hthis := (select_default_noDefault_iff dir _ _).mpr hc
        rw [hsel] at hthis
        exact Except.noConfusion hthis
      cases hk : d.typ.krateOf with
      | none =>
        have htrans := tb_krate_none dir rules d hlen hsel hk
        rw [htrans]
        refine ⟨⟨fun h => ?_, fun hc => absurd hc hne⟩,
          fun s hcontra => Except.noConfusion hcontra⟩
        injection h with h
        exact TranslateError.noConfusion h
      | some k =>
        cases hrl : render_lib (libsOf rules).head? with
        | error e =>
          have htrans := tb_renderlib_error dir rules d k e hlen hsel hk hrl
          have he := render_lib_error_eq _ _ hrl
          subst he
          rw [htrans]
          refine ⟨⟨fun h => ?_, fun hc => absurd hc hne⟩,
            fun s hcontra => Except.noConfusion hcontra⟩
          injection h with h
          exact TranslateError.noConfusion h
        | ok lb =>
          cases hrb : render_bins (binsOf rules) with
          | error e =>
            have htrans := tb_renderbins_error dir rules d k lb e hlen hsel hk hrl hrb
            have he := render_bins_error_eq _ _ hrb
            subst he
            rw [htrans]
            refine ⟨⟨fun h => ?_, fun hc => absurd hc hne⟩,
              fun s hcontra => Except.noConfusion hcontra⟩
            injection h with h
            exact TranslateError.noConfusion h
          | ok bb =>
            have htrans := tb_ok dir rules d k lb bb hlen hsel hk hrl hrb
            rw [htrans]
            refine ⟨⟨fun h => Except.noConfusion h, fun hc => absurd hc hne⟩, ?_⟩
            intro s h
            injection h with h
            exact ⟨d, select_default_ok_spec dir _ _ d hsel, k, hk, lb ++ bb, h.symm⟩

/-- Witness for C4 at `groupMixed`: the library names the package. -/
theorem default_rule_selection_witness :
    ∃ r, specDefaultRule (libsOf groupMixed) (binsOf groupMixed) = some r ∧
      ∃ k, r.typ.krateOf = some k ∧
        ∃ rest,
          "[package]\nname = \"lib1\"\nversion = \"0.1.0\"\nauthors = [\"Example <author@example.com>\"]\n\n[lib]\nname = \"lib1\"\npath = \"src/lib.rs\"\n\n[[bin]]\nname = \"aux_bin\"\npath = \"aux_bin.rs\"\n\n[[bin]]\nname = \"bin1\"\npath = \"src/main.rs\"\n"
            = toml_header k ++ rest :=
  (default_rule_selection ["dummy"] groupMixed).2
    "[package]\nname = \"lib1\"\nversion = \"0.1.0\"\nauthors = [\"Example <author@example.com>\"]\n\n[lib]\nname = \"lib1\"\npath = \"src/lib.rs\"\n\n[[bin]]\nname = \"aux_bin\"\npath = \"aux_bin.rs\"\n\n[[bin]]\nname = \"bin1\"\npath = \"src/main.rs\"\n"
    rfl

/-- Two libraries with no sources and no override: each library's crate
root is unresolvable. -/
def groupTwoLibsNoSrcs : List (BuildTarget × BuildRule) :=
  [("//dir:l1", mkLib "l1" []), ("//dir:l2", mkLib "l2" [])]

/-- C7 (counterexample): a directory group in which crate-root resolution
fails for its library rules nevertheless fails with `UnsupportedGrouping` —
the multiple-library rejection fires before any resolution — not with the
propagated resolver failure. -/
theorem unresolvable_root_counterexample :
    (∃ r ∈ libsOf groupTwoLibsNoSrcs, r.typ.crate_root = none) ∧
    translate_buildfile ["dir"] groupTwoLibsNoSrcs =
      .error (.unsupportedGrouping ["dir"] ["l1", "l2"]) := by
  constructor
  · exact ⟨mkLib "l1" [], by decide, by decide⟩
  · rfl

/-- C7 (amended): in a directory group with at most one library rule in
which crate-root resolution fails for some library or executable rule,
manifest synthesis fails — in the code through the `unwrap` panic on the
failed resolution — and emits no manifest text for that directory. -/
theorem unresolvable_root_aborts_group (dir : BuckPath)
    (rules : List (BuildTarget × BuildRule))
    (hlib : (libsOf rules).length ≤ 1)
    (hfail : ∃ r, (r ∈ libsOf rules ∨ r ∈ binsOf rules) ∧
      r.typ.crate_root = none) :
    translate_buildfile dir rules = .error .panickedUnwrapNone := by
  have hlen : ¬ (libsOf rules).length > 1 := by omega
  obtain ⟨r, hmem, hroot⟩ := hfail
  cases hL : libsOf rules with
  | nil =>
    have hrB : r ∈ binsOf rules := by
      rcases hmem with hm | hm
      · rw [hL] at hm
        exact absurd hm (List.not_mem_nil r)
      · exact hm
    have hrbpanic := render_bins_panics (binsOf rules) ⟨r, hrB, hroot⟩
    have hrl : render_lib (libsOf rules).head? = .ok "" := by
      rw [hL]
      rfl
    cases hdb : default_bin (binsOf rules) with
    | error e =>
      have he := default_bin_error_eq _ _ hdb
      subst he
      have hsel : select_default dir (libsOf rules) (binsOf rules)
          = .error .panickedUnwrapNone := by
        rw [hL]
        unfold select_default
        rw [hdb]
        rfl
      exact tb_sel_error dir rules _ hlen hsel
    | ok o =>
      cases o with
      | some b =>
        have hsel : select_default dir (libsOf rules) (binsOf rules) = .ok b := by
          rw [hL]
          unfold select_default
          rw [hdb]
          rfl
        have hbB : b ∈ binsOf rules :=
          List.mem_of_find?_eq_some (default_bin_ok_some _ _ hdb)
        obtain ⟨k, hk⟩ :=
          krateOf_isSome_of_executable _ (List.mem_filter.mp hbB).2
        exact tb_renderbins_error dir rules b k "" _ hlen hsel hk hrl hrbpanic
      | none =>
        cases hB : binsOf rules with
        | nil =>
          rw [hB] at hrB
          exact absurd hrB (List.not_mem_nil r)
        | cons b bs =>
          rw [hB] at hdb
          have hsel : select_default dir (libsOf rules) (binsOf rules) = .ok b := by
            rw [hL, hB]
            unfold select_default
            rw [hdb]
            rfl
          have hbB : b ∈ binsOf rules := by
            rw [hB]
            exact List.mem_cons_self _ _
          obtain ⟨k, hk⟩ :=
            krateOf_isSome_of_executable _ (List.mem_filter.mp hbB).2
          exact tb_renderbins_error dir rules b k "" _ hlen hsel hk hrl hrbpanic
  | cons l ls =>
    cases ls with
    | cons l2 ls2 =>
      exfalso
      rw [hL] at hlib
      simp only [List.length_cons] at hlib
      omega
    | nil =>
      have hsel : select_default dir (libsOf rules) (binsOf rules) = .ok l := by
        rw [hL]
        rfl
      have hlL : l ∈ libsOf rules := by
        rw [hL]
        exact List.mem_cons_self _ _
      obtain ⟨k, hk⟩ :=
        krateOf_isSome_of_is_library _ (List.mem_filter.mp hlL).2
      rcases hmem with hm | hm
      · rw [hL] at hm
        have hrEq : r = l := by simpa using hm
        have hrl : render_lib (libsOf rules).head? = .error .panickedUnwrapNone := by
          rw [hL]
          show render_lib (some l) = _
          rw [← hrEq]
          exact render_lib_panics r hroot
        exact tb_renderlib_error dir rules l k _ hlen hsel hk hrl
      · cases hrl : render_lib (libsOf rules).head? with
        | error e =>
          have he := render_lib_error_eq _ _ hrl
          subst he
          exact tb_renderlib_error dir rules l k _ hlen hsel hk hrl
        | ok lb =>
          have hrbpanic := render_bins_panics (binsOf rules) ⟨r, hm, hroot⟩
          exact tb_renderbins_error dir rules l k lb _ hlen hsel hk hrl hrbpanic

/-- A single executable with no sources: its crate root is unresolvable. -/
def groupBinNoSrcs : List (BuildTarget × BuildRule) :=
  [("//dir:bin1", mkBin "bin1" [])]

/-- Witness for the amended C7 at a one-executable group. -/
theorem unresolvable_root_aborts_group_witness :
    translate_buildfile ["dir"] groupBinNoSrcs = .error .panickedUnwrapNone :=
  unresolvable_root_aborts_group ["dir"] groupBinNoSrcs (by decide)
    ⟨mkBin "bin1" [], Or.inr (by decide), by decide⟩

/-- C6 (counterexample): the second directory group translates on its own,
yet when the first group fails, nothing at all is written — the failure is
not confined to its own directory group. -/
theorem groupwise_isolation_counterexample :
    (translate_buildfile ["d2"] groupOneLib).isOk = true ∧
    (translate_groups [(["d1"], groupTwoLibs), (["d2"], groupOneLib)]).1 = [] ∧
    (translate_groups [(["d1"], groupTwoLibs), (["d2"], groupOneLib)]).2
      = some (.unsupportedGrouping ["d1"] ["lib1", "lib2"]) := by
  refine ⟨rfl, rfl, rfl⟩

theorem translate_groups_abort_aux :
    ∀ (gs1 : List (BuckPath × List (BuildTarget × BuildRule)))
      (g : BuckPath × List (BuildTarget × BuildRule))
      (gs2 : List (BuckPath × List (BuildTarget × BuildRule)))
      (e : TranslateError),
      (∀ p ∈ gs1, (translate_buildfile p.1 p.2).isOk = true) →
      translate_buildfile g.1 g.2 = .error e →
      (translate_groups (gs1 ++ g :: gs2)).2 = some e ∧
      (translate_groups (gs1 ++ g :: gs2)).1.map Prod.fst = gs1.map Prod.fst
  | [], g, gs2, e, h1, h2 => by
    obtain ⟨dir, rs⟩ := g
    rw [List.nil_append]
    unfold translate_groups
    rw [h2]
    exact ⟨rfl, rfl⟩
  | p :: ps, g, gs2, e, h1, h2 => by
    obtain ⟨dir, rs⟩ := p
    have hok := h1 (dir, rs) (List.mem_cons_self _ _)
    have ih := translate_groups_abort_aux ps g gs2 e
      (fun q hq => h1 q (List.mem_cons_of_mem _ hq)) h2
    cases hts : translate_buildfile dir rs with
    | error e' =>
      rw [hts] at hok
      exact Bool.noConfusion hok
    | ok s =>
      rw [List.cons_append]
      unfold translate_groups
      rw [hts]
      cases hrec : translate_groups (ps ++ g :: gs2) with
      | mk w er =>
        rw [hrec] at ih
        exact ⟨ih.1, congrArg (List.cons dir) ih.2⟩

/-- C6 (amended): a synthesis failure in one directory group aborts the
translation loop: the groups processed before the failing one are
translated and written, the failing group and every group after it are
not. -/
theorem failure_aborts_remaining_groups
    (gs1 : List (BuckPath × List (BuildTarget × BuildRule)))
    (g : BuckPath × List (BuildTarget × BuildRule))
    (gs2 : List (BuckPath × List (BuildTarget × BuildRule)))
    (e : TranslateError)
    (h1 : ∀ p ∈ gs1, (translate_buildfile p.1 p.2).isOk = true)
    (h2 : translate_buildfile g.1 g.2 = .error e) :
    (translate_groups (gs1 ++ g :: gs2)).2 = some e ∧
    (translate_groups (gs1 ++ g :: gs2)).1.map Prod.fst = gs1.map Prod.fst :=
  translate_groups_abort_aux gs1 g gs2 e h1 h2

/-- Witness for the amended C6: one successful group before a failing one
is written; the failure aborts the run. -/
theorem failure_aborts_remaining_groups_witness :
    (translate_groups [(["d2"], groupOneLib), (["d1"], groupTwoLibs)]).2
      = some (.unsupportedGrouping ["d1"] ["lib1", "lib2"]) ∧
    (translate_groups [(["d2"], groupOneLib), (["d1"], groupTwoLibs)]).1.map
        Prod.fst
      = [["d2"]] :=
  failure_aborts_remaining_groups [(["d2"], groupOneLib)]
    (["d1"], groupTwoLibs) [] (.unsupportedGrouping ["d1"] ["lib1", "lib2"])
    (by intro p hp; rw [List.mem_singleton.mp hp]; rfl) rfl

end Transantlator
